import Mathlib

/-!
Shallow embedding of the discord-presence repository core:
the wire message codec (src/models/message.rs) and the event handler
registry (src/event_handler.rs), with theorems settling the frozen claims.

Modelling conventions:
- Machine integers are `Nat` with explicit bounds or `% 2 ^ w`.
- A byte sequence is a `List Nat` whose elements are intended to be `< 256`.
- A Rust `String` is exactly a UTF-8 byte sequence, so a payload is modelled
  as its `List Nat` of bytes, with `validUtf8` the well-formedness check that
  `read_to_string` performs.
- A Rust panic is modelled by `Option` (`none` = panic); recoverable
  `Result` values are modelled by `Except DiscordError`.
- `Arc` pointer identity of handlers is modelled by a `Nat` identifier;
  `Weak::upgrade` success is modelled by a liveness `Bool`.
-/

namespace DiscordPresence

/-- Codes for payload types, from `enum OpCode` in src/models/message.rs.
Variants in declaration order carry `repr(u32)` ordinals 0..4. -/
inductive OpCode where
  | Handshake
  | Frame
  | Close
  | Ping
  | Pong
deriving DecidableEq, Repr

/-- The `repr(u32)` ordinal of an opcode (`self.opcode as u32`). -/
def OpCode.toU32 : OpCode → Nat
  | .Handshake => 0
  | .Frame => 1
  | .Close => 2
  | .Ping => 3
  | .Pong => 4

/-- `OpCode::from_u32` as derived by `num_derive::FromPrimitive`:
ordinals 0..4 map to the variants, everything else to `none`. -/
def OpCode.fromU32 (n : Nat) : Option OpCode :=
  if n = 0 then some .Handshake
  else if n = 1 then some .Frame
  else if n = 2 then some .Close
  else if n = 3 then some .Ping
  else if n = 4 then some .Pong
  else none

/-- Modelled from the spec: the error kinds of `crate::DiscordError`
(its defining module is not among the provided sources). `Conversion` is the
opcode-conversion failure, `IoError` covers truncation / invalid-text reads,
`NoChangesMade` is the registry-removal miss. -/
inductive DiscordError where
  | Conversion
  | IoError
  | NoChangesMade
deriving DecidableEq, Repr

/-- `struct Message`: an opcode and a UTF-8 text payload.
The payload is modelled as its byte sequence. -/
structure Message where
  opcode : OpCode
  payload : List Nat
deriving DecidableEq, Repr

/-- The four bytes of `write_u32::<LittleEndian>`, least significant first. -/
def toLE4 (n : Nat) : List Nat :=
  [n % 256, n / 256 % 256, n / 65536 % 256, n / 16777216 % 256]

/-- `read_u32::<LittleEndian>` on a byte slice: consumes four bytes and
returns the value and the remaining bytes, or fails (UnexpectedEof) when
fewer than four bytes remain. -/
def readLE4 : List Nat → Option (Nat × List Nat)
  | b0 :: b1 :: b2 :: b3 :: rest =>
      some (b0 + 256 * b1 + 65536 * b2 + 16777216 * b3, rest)
  | _ => none

/-- Is `b` a UTF-8 continuation byte (0x80..0xBF)? -/
def utf8Cont (b : Nat) : Bool :=
  decide (128 ≤ b ∧ b ≤ 191)

/-- Well-formed UTF-8 (RFC 3629), the validation `read_to_string` applies
to the bytes it reads: ASCII, 2-byte C2..DF, 3-byte E0..EF excluding
overlongs (E0 A0..BF) and surrogates (ED 80..9F), 4-byte F0..F4 excluding
overlongs (F0 90..BF) and values past U+10FFFF (F4 80..8F). -/
def validUtf8 : List Nat → Bool
  | [] => true
  | b :: rest =>
    if b ≤ 127 then validUtf8 rest
    else if b < 194 then false
    else if b ≤ 223 then
      match rest with
      | c1 :: rest2 => utf8Cont c1 && validUtf8 rest2
      | [] => false
    else if b ≤ 239 then
      match rest with
      | c1 :: c2 :: rest2 =>
          (if b = 224 then decide (160 ≤ c1 ∧ c1 ≤ 191)
           else if b = 237 then decide (128 ≤ c1 ∧ c1 ≤ 159)
           else utf8Cont c1) && utf8Cont c2 && validUtf8 rest2
      | _ => false
    else if b ≤ 244 then
      match rest with
      | c1 :: c2 :: c3 :: rest2 =>
          (if b = 240 then decide (144 ≤ c1 ∧ c1 ≤ 191)
           else if b = 244 then decide (128 ≤ c1 ∧ c1 ≤ 143)
           else utf8Cont c1) && utf8Cont c2 && utf8Cont c3 && validUtf8 rest2
      | _ => false
    else false

/-- `Message::encode`: the opcode ordinal as 4 little-endian bytes, the
payload byte length as 4 little-endian bytes, then the raw payload bytes.
`u32::try_from(self.payload.len()).expect(..)` panics when the length does
not fit in 32 bits; the panic is modelled by `none`, and it happens before
any byte is emitted. -/
def Message.encode (m : Message) : Option (List Nat) :=
  if m.payload.length < 2 ^ 32 then
    some (toLE4 m.opcode.toU32 ++ toLE4 m.payload.length ++ m.payload)
  else
    none

/-- `Message::decode`: reads a little-endian u32 and converts it with
`OpCode::from_u32` (failing with `Conversion` on `None`), reads a
little-endian u32 length, then calls `read_to_string`, which reads ALL
remaining bytes of the slice (the length is only a capacity hint) and fails
when they are not valid UTF-8. -/
def Message.decode (bytes : List Nat) : Except DiscordError Message :=
  match readLE4 bytes with
  | none => .error .IoError
  | some (op, rest) =>
    match OpCode.fromU32 op with
    | none => .error .Conversion
    | some opcode =>
      match readLE4 rest with
      | none => .error .IoError
      | some (_, rest2) =>
        if validUtf8 rest2 then .ok { opcode := opcode, payload := rest2 }
        else .error .IoError

/-- Modelled from the spec: `Event`, a hashable, equality-comparable
enumeration of protocol event kinds used purely as a dictionary key (its
defining module is not among the provided sources). -/
inductive Event where
  | Ready
  | Error
  | ActivityJoin
  | ActivityJoinRequest
  | ActivitySpectate
deriving DecidableEq, Repr

/-- The handler table of `HandlerRegistry`: `HashMap<Event, Vec<Arc<Handler>>>`
modelled as an association list with pairwise-distinct keys; handlers are
identified by the `Nat` id standing for their `Arc` allocation. -/
abbrev HandlerRegistry := List (Event × List Nat)

/-- `HashMap::get`: the handler list stored under `event`, if any. -/
def lookupEvent : HandlerRegistry → Event → Option (List Nat)
  | [], _ => none
  | (e2, l) :: rest, e => if e2 = e then some l else lookupEvent rest e

/-- `HandlerRegistry::register`:
`self.handlers.entry(event).or_default().push(handler)` — append the new
handler id at the end of the list for `event`, inserting an empty entry
first when the key is absent. -/
def HandlerRegistry.register : HandlerRegistry → Event → Nat → HandlerRegistry
  | [], e, h => [(e, [h])]
  | (e2, l) :: rest, e, h =>
    if e2 = e then (e2, l ++ [h]) :: rest
    else (e2, l) :: HandlerRegistry.register rest e h

/-- `handlers.iter().position(|handler| Arc::ptr_eq(handler, target))`
followed by `handlers.remove(index)`: the list with the first occurrence of
`target` removed, or `none` when `target` does not occur. -/
def removeFirst : List Nat → Nat → Option (List Nat)
  | [], _ => none
  | x :: xs, t =>
    if x = t then some xs else (removeFirst xs t).map (fun ys => x :: ys)

/-- `HandlerRegistry::remove`: under the write lock, look up `event`; if its
list contains an entry `Arc::ptr_eq` to `target`, remove that entry and
return it (`Ok`); otherwise return `Err(DiscordError::NoChangesMade)` with
the table unchanged. The key itself is never deleted. -/
def HandlerRegistry.remove :
    HandlerRegistry → Event → Nat → Except DiscordError Nat × HandlerRegistry
  | [], _, _ => (.error .NoChangesMade, [])
  | (e2, l) :: rest, e, t =>
    if e2 = e then
      match removeFirst l t with
      | some l2 => (.ok t, (e2, l2) :: rest)
      | none => (.error .NoChangesMade, (e2, l) :: rest)
    else
      let (r, rest2) := HandlerRegistry.remove rest e t
      (r, (e2, l) :: rest2)

/-- `impl Drop for EventCallbackHandle`: when both weak references upgrade
(the registry and the handler allocation are still alive), call
`registry.remove(self.event, &handler)` and ignore its result (a failure is
only logged); otherwise do nothing. -/
def dropHandle (registryAlive handlerAlive : Bool) (st : HandlerRegistry)
    (event : Event) (target : Nat) : HandlerRegistry :=
  if registryAlive && handlerAlive then (st.remove event target).2 else st

/-- End of a handle variable's lifetime: `persist` calls `std::mem::forget`,
so the destructor never runs and the table is untouched; otherwise the
`Drop` impl runs. -/
def finalizeHandle (persisted registryAlive handlerAlive : Bool)
    (st : HandlerRegistry) (event : Event) (target : Nat) : HandlerRegistry :=
  if persisted then st else dropHandle registryAlive handlerAlive st event target

/-! ## Codec lemmas -/

/-- Reading back four little-endian bytes recovers any value below `2 ^ 32`
and leaves the rest of the input untouched. -/
theorem readLE4_toLE4 (n : Nat) (rest : List Nat) (h : n < 2 ^ 32) :
    readLE4 (toLE4 n ++ rest) = some (n, rest) := by
  simp only [toLE4, List.cons_append, List.nil_append, readLE4]
  refine congrArg some (Prod.ext ?_ rfl)
  simp only
  omega

/-- `OpCode::from_u32` inverts the `repr(u32)` cast. -/
theorem fromU32_toU32 (op : OpCode) : OpCode.fromU32 op.toU32 = some op := by
  cases op <;> rfl

/-- Every opcode ordinal fits in 32 bits. -/
theorem toU32_lt (op : OpCode) : op.toU32 < 2 ^ 32 := by
  cases op <;> decide

/-- Claim C1: for every `Message` whose payload is valid UTF-8 text and whose
payload byte length fits in a 32-bit unsigned integer, decoding the bytes
produced by encoding the message yields the message back. -/
theorem claim_C1_decode_encode (m : Message)
    (hv : validUtf8 m.payload = true) (hl : m.payload.length < 2 ^ 32) :
    ∃ bs, m.encode = some bs ∧ Message.decode bs = .ok m := by
  refine ⟨toLE4 m.opcode.toU32 ++ toLE4 m.payload.length ++ m.payload, ?_, ?_⟩
  · unfold Message.encode
    rw [if_pos hl]
  · rw [List.append_assoc, Message.decode,
      readLE4_toLE4 _ _ (toU32_lt m.opcode)]
    simp [fromU32_toU32, readLE4_toLE4 _ _ hl, hv]

/-- Claim C1 witness: a concrete round trip through encode and decode. -/
theorem claim_C1_decode_encode_witness :
    ∃ bs, (Message.mk .Frame [104, 105]).encode = some bs ∧
      Message.decode bs = .ok (Message.mk .Frame [104, 105]) :=
  claim_C1_decode_encode (Message.mk .Frame [104, 105]) (by decide) (by decide)

/-- Claim C4: for every `Message` whose payload byte length fits in 32 bits,
`encode` produces the opcode ordinal as 4 little-endian bytes, then the
payload byte length as 4 little-endian bytes, then the raw payload bytes
with no trailing terminator, for a total of `8 + payload length` bytes. -/
theorem claim_C4_encode_layout (m : Message) (hl : m.payload.length < 2 ^ 32) :
    ∃ bs, m.encode = some bs ∧
      bs.length = 8 + m.payload.length ∧
      bs.take 4 = toLE4 m.opcode.toU32 ∧
      (bs.drop 4).take 4 = toLE4 m.payload.length ∧
      bs.drop 8 = m.payload := by
  refine ⟨toLE4 m.opcode.toU32 ++ toLE4 m.payload.length ++ m.payload,
    ?_, ?_, ?_, ?_, ?_⟩
  · unfold Message.encode
    rw [if_pos hl]
  all_goals simp [toLE4]
  all_goals omega

/-- Claim C4 witness: the layout theorem applied to a concrete message. -/
theorem claim_C4_encode_layout_witness :
    ∃ bs, (Message.mk .Close [65]).encode = some bs ∧
      bs.length = 8 + (Message.mk .Close [65]).payload.length ∧
      bs.take 4 = toLE4 (Message.mk .Close [65]).opcode.toU32 ∧
      (bs.drop 4).take 4 = toLE4 (Message.mk .Close [65]).payload.length ∧
      bs.drop 8 = (Message.mk .Close [65]).payload :=
  claim_C4_encode_layout (Message.mk .Close [65]) (by decide)

/-- Claim C5: encoding fails fatally (no bytes are produced) exactly when the
payload byte length exceeds `2 ^ 32 - 1`; for any payload of byte length at
most `2 ^ 32 - 1` the fatal branch is unreachable. -/
theorem claim_C5_length_guard (m : Message) :
    m.encode = none ↔ 2 ^ 32 ≤ m.payload.length := by
  unfold Message.encode
  split
  · simp only [reduceCtorEq, false_iff]
    omega
  · simp only [true_iff]
    omega

/-- Ordinals 5 and above are outside the opcode enumeration. -/
theorem fromU32_eq_none (n : Nat) (h : 5 ≤ n) : OpCode.fromU32 n = none := by
  unfold OpCode.fromU32
  rw [if_neg (by omega), if_neg (by omega), if_neg (by omega),
    if_neg (by omega), if_neg (by omega)]

/-- Reading a little-endian u32 from fewer than four bytes fails. -/
theorem readLE4_short (l : List Nat) (h : l.length < 4) : readLE4 l = none := by
  match l, h with
  | [], _ => rfl
  | [_], _ => rfl
  | [_, _], _ => rfl
  | [_, _, _], _ => rfl

/-- Unfolding equation for `readLE4` on at least four bytes. -/
theorem readLE4_cons (b0 b1 b2 b3 : Nat) (rest : List Nat) :
    readLE4 (b0 :: b1 :: b2 :: b3 :: rest) =
      some (b0 + 256 * b1 + 65536 * b2 + 16777216 * b3, rest) := rfl

/-- Claim C3: `OpCode::from_u32` sends ordinal 0 to `Handshake` and ordinal 4
to `Pong`, and every ordinal 5 or above to nothing, so `decode` on a frame
whose opcode field holds an ordinal 5 or above fails with a `Conversion`
error, never a default opcode. -/
theorem claim_C3_opcode_bounds :
    OpCode.fromU32 0 = some .Handshake ∧
    OpCode.fromU32 4 = some .Pong ∧
    (∀ n, 5 ≤ n → OpCode.fromU32 n = none) ∧
    (∀ (n : Nat) (rest : List Nat), 5 ≤ n → n < 2 ^ 32 →
      Message.decode (toLE4 n ++ rest) = .error .Conversion) := by
  refine ⟨rfl, rfl, fromU32_eq_none, ?_⟩
  intro n rest h5 h32
  rw [Message.decode, readLE4_toLE4 _ _ h32]
  simp [fromU32_eq_none n h5]

/-- Claim C3 witness: ordinal 7 is rejected with a `Conversion` error. -/
theorem claim_C3_opcode_bounds_witness :
    Message.decode (toLE4 7 ++ [0, 0, 0, 0]) = .error .Conversion :=
  claim_C3_opcode_bounds.2.2.2 7 [0, 0, 0, 0] (by decide) (by decide)

/-- Claim C2 counterexample: the header declares a payload length of 5 but
zero payload bytes follow, yet `decode` succeeds with an empty payload
instead of returning a truncation error, because `read_to_string` ignores
the declared length and just reads the remaining bytes. -/
theorem claim_C2_counterexample :
    Message.decode [0, 0, 0, 0, 5, 0, 0, 0] = .ok (Message.mk .Handshake []) := rfl

/-- Claim C2 amended: `decode` reads the 4-byte little-endian length field
but uses it only as a capacity hint; the payload is ALL bytes after the
8-byte header, whatever the declared length. It errors when fewer than 8
header bytes are present or when the bytes after the header are not valid
UTF-8 text; a payload shorter or longer than the declared length is not
detected. -/
theorem claim_C2_decode_behavior :
    (∀ bs : List Nat, bs.length < 8 → ∃ e, Message.decode bs = .error e) ∧
    (∀ (op : OpCode) (n : Nat) (payload : List Nat), n < 2 ^ 32 →
      validUtf8 payload = true →
      Message.decode (toLE4 op.toU32 ++ toLE4 n ++ payload) =
        .ok { opcode := op, payload := payload }) ∧
    (∀ (op : OpCode) (n : Nat) (payload : List Nat), n < 2 ^ 32 →
      validUtf8 payload = false →
      Message.decode (toLE4 op.toU32 ++ toLE4 n ++ payload) =
        .error .IoError) := by
  refine ⟨?_, ?_, ?_⟩
  · intro bs hlen
    match bs, hlen with
    | [], _ => exact ⟨.IoError, rfl⟩
    | [_], _ => exact ⟨.IoError, rfl⟩
    | [_, _], _ => exact ⟨.IoError, rfl⟩
    | [_, _, _], _ => exact ⟨.IoError, rfl⟩
    | b0 :: b1 :: b2 :: b3 :: rest, hlen =>
      have hrest : readLE4 rest = none := by
        refine readLE4_short rest ?_
        simp only [List.length_cons] at hlen
        omega
      cases hop : OpCode.fromU32 (b0 + 256 * b1 + 65536 * b2 + 16777216 * b3) with
      | none => exact ⟨.Conversion, by simp [Message.decode, readLE4_cons, hop]⟩
      | some op => exact ⟨.IoError, by simp [Message.decode, readLE4_cons, hop, hrest]⟩
  · intro op n payload hn hv
    rw [List.append_assoc, Message.decode, readLE4_toLE4 _ _ (toU32_lt op)]
    simp [fromU32_toU32, readLE4_toLE4 _ _ hn, hv]
  · intro op n payload hn hv
    rw [List.append_assoc, Message.decode, readLE4_toLE4 _ _ (toU32_lt op)]
    simp [fromU32_toU32, readLE4_toLE4 _ _ hn, hv]

/-- Claim C2 witness: a frame whose declared length 99 disagrees with the
actual one-byte payload still decodes to that one-byte payload. -/
theorem claim_C2_decode_behavior_witness :
    Message.decode (toLE4 OpCode.Pong.toU32 ++ toLE4 99 ++ [104]) =
      .ok { opcode := OpCode.Pong, payload := [104] } :=
  claim_C2_decode_behavior.2.1 .Pong 99 [104] (by decide) (by decide)

/-! ## Registry lemmas -/

/-- Registering appends the handler at the end of the list for its event
(an absent key starts from the empty list). -/
theorem lookup_register_self : ∀ (st : HandlerRegistry) (e : Event) (h : Nat),
    lookupEvent (st.register e h) e = some ((lookupEvent st e).getD [] ++ [h])
  | [], e, h => by simp [HandlerRegistry.register, lookupEvent]
  | (e3, l3) :: rest, e, h => by
    by_cases he : e3 = e
    · subst he
      simp [HandlerRegistry.register, lookupEvent]
    · simp [HandlerRegistry.register, lookupEvent, he, lookup_register_self rest e h]

/-- Registering one event leaves every other event's list unchanged. -/
theorem lookup_register_other : ∀ (st : HandlerRegistry) (e : Event) (h : Nat)
    (e2 : Event), e2 ≠ e → lookupEvent (st.register e h) e2 = lookupEvent st e2
  | [], e, h, e2, hne => by simp [HandlerRegistry.register, lookupEvent, Ne.symm hne]
  | (e3, l3) :: rest, e, h, e2, hne => by
    by_cases he : e3 = e
    · subst he
      simp [HandlerRegistry.register, lookupEvent, Ne.symm hne]
    · by_cases h32 : e3 = e2
      · subst h32
        simp [HandlerRegistry.register, lookupEvent, he]
      · simp [HandlerRegistry.register, lookupEvent, he, h32,
          lookup_register_other rest e h e2 hne]

/-- Registering under an absent key appends that key at the end of the
table; under a present key it leaves the key sequence unchanged. -/
theorem register_keys : ∀ (st : HandlerRegistry) (e : Event) (h : Nat),
    (lookupEvent st e = none →
      (st.register e h).map Prod.fst = st.map Prod.fst ++ [e]) ∧
    (∀ l, lookupEvent st e = some l →
      (st.register e h).map Prod.fst = st.map Prod.fst)
  | [], e, h => by simp [HandlerRegistry.register, lookupEvent]
  | (e3, l3) :: rest, e, h => by
    by_cases he : e3 = e
    · subst he
      simp [HandlerRegistry.register, lookupEvent]
    · constructor
      · intro hnone
        simp only [lookupEvent, if_neg he] at hnone
        simp [HandlerRegistry.register, he, (register_keys rest e h).1 hnone]
      · intro l hsome
        simp only [lookupEvent, if_neg he] at hsome
        simp [HandlerRegistry.register, he, (register_keys rest e h).2 l hsome]

/-- A handler id that does not occur in the list is not removed. -/
theorem removeFirst_not_mem : ∀ (l : List Nat) (t : Nat), t ∉ l →
    removeFirst l t = none
  | [], _, _ => rfl
  | x :: xs, t, h => by
    have hx : ¬x = t := fun he => h (he ▸ List.mem_cons_self x xs)
    simp [removeFirst, hx,
      removeFirst_not_mem xs t (fun hm => h (List.mem_cons_of_mem x hm))]

/-- Removing a handler id deletes exactly its first occurrence. -/
theorem removeFirst_split : ∀ (l1 : List Nat) (t : Nat) (l2 : List Nat),
    t ∉ l1 → removeFirst (l1 ++ t :: l2) t = some (l1 ++ l2)
  | [], t, l2, _ => by simp [removeFirst]
  | x :: xs, t, l2, h => by
    have hx : ¬x = t := fun he => h (he ▸ List.mem_cons_self x xs)
    simp [removeFirst, hx,
      removeFirst_split xs t l2 (fun hm => h (List.mem_cons_of_mem x hm))]

/-- When the target occurs in the event's list, `remove` returns it, shrinks
exactly that list, leaves every other event's list unchanged, and keeps the
key sequence intact. -/
theorem remove_found : ∀ (st : HandlerRegistry) (e : Event) (t : Nat)
    (l l2 : List Nat), lookupEvent st e = some l → removeFirst l t = some l2 →
    ∃ st2, st.remove e t = (.ok t, st2) ∧
      lookupEvent st2 e = some l2 ∧
      (∀ e2, e2 ≠ e → lookupEvent st2 e2 = lookupEvent st e2) ∧
      st2.map Prod.fst = st.map Prod.fst
  | [], e, t, l, l2 => by simp [lookupEvent]
  | (e3, l3) :: rest, e, t, l, l2 => by
    intro hl hr
    by_cases he : e3 = e
    · subst he
      simp [lookupEvent] at hl
      subst hl
      refine ⟨(e3, l2) :: rest, ?_, ?_, ?_, rfl⟩
      · simp [HandlerRegistry.remove, hr]
      · simp [lookupEvent]
      · intro e2 hne
        simp [lookupEvent, Ne.symm hne]
    · simp only [lookupEvent, if_neg he] at hl
      obtain ⟨st2, hst2, hl2, hoth, hkeys⟩ := remove_found rest e t l l2 hl hr
      refine ⟨(e3, l3) :: st2, ?_, ?_, ?_, ?_⟩
      · simp [HandlerRegistry.remove, he, hst2]
      · simp [lookupEvent, he, hl2]
      · intro e2 hne
        by_cases h32 : e3 = e2
        · subst h32
          simp [lookupEvent]
        · simp [lookupEvent, h32, hoth e2 hne]
      · simp [hkeys]

/-- When no entry for the event holds the target, `remove` reports
`NoChangesMade` and returns the table exactly as it was. -/
theorem remove_miss : ∀ (st : HandlerRegistry) (e : Event) (t : Nat),
    (∀ l, lookupEvent st e = some l → removeFirst l t = none) →
    st.remove e t = (.error .NoChangesMade, st)
  | [], _, _, _ => rfl
  | (e3, l3) :: rest, e, t, hmiss => by
    by_cases he : e3 = e
    · subst he
      have h3 : removeFirst l3 t = none := hmiss l3 (by simp [lookupEvent])
      simp [HandlerRegistry.remove, h3]
    · have hrest := remove_miss rest e t
        (fun l hl => hmiss l (by simpa [lookupEvent, he] using hl))
      simp [HandlerRegistry.remove, he, hrest]

/-- `remove` never deletes a key, whether it finds the target or not. -/
theorem remove_keys : ∀ (st : HandlerRegistry) (e : Event) (t : Nat),
    ((st.remove e t).2).map Prod.fst = st.map Prod.fst
  | [], _, _ => rfl
  | (e3, l3) :: rest, e, t => by
    by_cases he : e3 = e
    · subst he
      cases hr : removeFirst l3 t <;> simp [HandlerRegistry.remove, hr]
    · have ih := remove_keys rest e t
      cases hrm : HandlerRegistry.remove rest e t with
      | mk r rest2 =>
        rw [hrm] at ih
        simp [HandlerRegistry.remove, he, hrm, ih]

/-- Claim C6: `register` appends the handler at the end of the ordered list
for its event and leaves all other registrations unchanged; from an empty
registry, registering two handlers for `Ready` and one for `Error` yields
exactly two table entries with list lengths 2 and 1. -/
theorem claim_C6_register (st : HandlerRegistry) (e : Event) (h : Nat) :
    lookupEvent (st.register e h) e = some ((lookupEvent st e).getD [] ++ [h]) ∧
    (∀ e2, e2 ≠ e → lookupEvent (st.register e h) e2 = lookupEvent st e2) ∧
    ((HandlerRegistry.register (HandlerRegistry.register
        (HandlerRegistry.register [] .Ready 0) .Ready 1) .Error 2).length = 2 ∧
      lookupEvent (HandlerRegistry.register (HandlerRegistry.register
        (HandlerRegistry.register [] .Ready 0) .Ready 1) .Error 2) .Ready =
        some [0, 1] ∧
      lookupEvent (HandlerRegistry.register (HandlerRegistry.register
        (HandlerRegistry.register [] .Ready 0) .Ready 1) .Error 2) .Error =
        some [2]) :=
  ⟨lookup_register_self st e h,
    fun e2 hne => lookup_register_other st e h e2 hne,
    by decide⟩

/-- Claim C6 witness: registering for `Ready` does not disturb `Error`. -/
theorem claim_C6_register_witness :
    lookupEvent (HandlerRegistry.register [] .Ready 5) .Error =
      lookupEvent ([] : HandlerRegistry) .Error :=
  (claim_C6_register [] .Ready 5).2.1 .Error (by decide)

/-- Claim C7: dropping a non-persisted handle while both the registry and
its handler are alive removes exactly that handle's own entry (the first
occurrence of its handler id), leaves sibling entries for the same event
and all other events untouched; when either weak reference is dead the drop
is a silent no-op. -/
theorem claim_C7_drop_handle (st : HandlerRegistry) (e : Event) (t : Nat)
    (l1 l2 : List Nat) (hl : lookupEvent st e = some (l1 ++ t :: l2))
    (ht : t ∉ l1) :
    lookupEvent (dropHandle true true st e t) e = some (l1 ++ l2) ∧
    (∀ e2, e2 ≠ e → lookupEvent (dropHandle true true st e t) e2 =
      lookupEvent st e2) ∧
    (∀ (ra ha : Bool) (st3 : HandlerRegistry) (e3 : Event) (t3 : Nat),
      ra = false ∨ ha = false → dropHandle ra ha st3 e3 t3 = st3) := by
  obtain ⟨st2, hst2, hl2, hoth, _⟩ :=
    remove_found st e t (l1 ++ t :: l2) (l1 ++ l2) hl (removeFirst_split l1 t l2 ht)
  have hdrop : dropHandle true true st e t = st2 := by
    simp [dropHandle, hst2]
  refine ⟨by rw [hdrop]; exact hl2, fun e2 hne => by rw [hdrop]; exact hoth e2 hne, ?_⟩
  intro ra ha st3 e3 t3 hdead
  cases hdead with
  | inl h => subst h; simp [dropHandle]
  | inr h => subst h; simp [dropHandle]

/-- Claim C7 witness: dropping the second `Ready` handler leaves the first
`Ready` handler and the `Error` handler in place. -/
theorem claim_C7_drop_handle_witness :
    lookupEvent (dropHandle true true [(Event.Ready, [1, 2]), (Event.Error, [3])]
      .Ready 2) .Ready = some ([1] ++ []) ∧
    lookupEvent (dropHandle true true [(Event.Ready, [1, 2]), (Event.Error, [3])]
      .Ready 2) .Error = some [3] :=
  ⟨(claim_C7_drop_handle [(Event.Ready, [1, 2]), (Event.Error, [3])] .Ready 2
      [1] [] (by decide) (by decide)).1,
    by
      have h := (claim_C7_drop_handle [(Event.Ready, [1, 2]), (Event.Error, [3])]
        .Ready 2 [1] [] (by decide) (by decide)).2.1 .Error (by decide)
      rw [h]
      decide⟩

/-- Claim C8: for a handler registered exactly once under its event, the
first `remove` succeeds returning the handler, and a second `remove` yields
`NoChangesMade` while leaving the table exactly as the first call left it. -/
theorem claim_C8_remove_twice (st : HandlerRegistry) (e : Event) (t : Nat)
    (l1 l2 : List Nat) (hl : lookupEvent st e = some (l1 ++ t :: l2))
    (h1 : t ∉ l1) (h2 : t ∉ l2) :
    (st.remove e t).1 = .ok t ∧
    HandlerRegistry.remove (st.remove e t).2 e t =
      (.error .NoChangesMade, (st.remove e t).2) := by
  obtain ⟨st2, hst2, hl2, _, _⟩ :=
    remove_found st e t (l1 ++ t :: l2) (l1 ++ l2) hl (removeFirst_split l1 t l2 h1)
  rw [hst2]
  refine ⟨rfl, remove_miss st2 e t ?_⟩
  intro l hsome
  rw [hl2] at hsome
  cases hsome
  refine removeFirst_not_mem (l1 ++ l2) t ?_
  intro hmem
  rcases List.mem_append.mp hmem with hmem | hmem
  · exact h1 hmem
  · exact h2 hmem

/-- Claim C8 witness: removing handler 4 from `Ready` twice succeeds once
and then reports `NoChangesMade` without touching the table. -/
theorem claim_C8_remove_twice_witness :
    (HandlerRegistry.remove [(Event.Ready, [4])] .Ready 4).1 = .ok 4 ∧
    HandlerRegistry.remove
        (HandlerRegistry.remove [(Event.Ready, [4])] .Ready 4).2 .Ready 4 =
      (.error .NoChangesMade,
        (HandlerRegistry.remove [(Event.Ready, [4])] .Ready 4).2) :=
  claim_C8_remove_twice [(Event.Ready, [4])] .Ready 4 [] [] (by decide)
    (by decide) (by decide)

/-- Claim C9: a persisted handle never runs its cleanup, so the registry is
untouched when the handle variable dies; an event whose only registration
was persisted still holds exactly that one entry afterwards. -/
theorem claim_C9_persist (ra ha : Bool) (st : HandlerRegistry) (e : Event)
    (t : Nat) :
    finalizeHandle true ra ha st e t = st ∧
    (lookupEvent st e = some [t] →
      lookupEvent (finalizeHandle true ra ha st e t) e = some [t]) := by
  refine ⟨by simp [finalizeHandle], ?_⟩
  intro hl
  simpa [finalizeHandle] using hl

/-- Claim C9 witness: the sole persisted `Ready` registration survives the
end of its handle's scope. -/
theorem claim_C9_persist_witness :
    lookupEvent (finalizeHandle true true true [(Event.Ready, [3])] .Ready 3)
      .Ready = some [3] :=
  (claim_C9_persist true true [(Event.Ready, [3])] .Ready 3).2 (by decide)

/-- Claim C10: once a key is in the handler table no operation deletes it:
`remove` (and handle drops) preserve the key sequence exactly, removing the
last handler leaves the key mapped to the empty list, and `register`
appends a fresh key (or keeps the keys unchanged when the key exists), so
the table counts every event ever registered. -/
theorem claim_C10_keys_never_deleted (st : HandlerRegistry) (e : Event)
    (t h : Nat) :
    ((st.remove e t).2).map Prod.fst = st.map Prod.fst ∧
    (∀ ra ha, (dropHandle ra ha st e t).map Prod.fst = st.map Prod.fst) ∧
    (lookupEvent st e = some [t] →
      lookupEvent (st.remove e t).2 e = some []) ∧
    (lookupEvent st e = none →
      (st.register e h).map Prod.fst = st.map Prod.fst ++ [e]) ∧
    (∀ l, lookupEvent st e = some l →
      (st.register e h).map Prod.fst = st.map Prod.fst) := by
  refine ⟨remove_keys st e t, ?_, ?_, (register_keys st e h).1,
    (register_keys st e h).2⟩
  · intro ra ha
    cases ra <;> cases ha <;> simp [dropHandle, remove_keys st e t]
  · intro hl
    obtain ⟨st2, hst2, hl2, _, _⟩ :=
      remove_found st e t [t] [] hl (removeFirst_split [] t [] (by simp))
    rw [hst2]
    exact hl2

/-- Claim C10 witness: removing the only `Ready` handler keeps the `Ready`
key, now mapped to the empty list. -/
theorem claim_C10_keys_never_deleted_witness :
    lookupEvent (HandlerRegistry.remove [(Event.Ready, [7])] .Ready 7).2
      .Ready = some [] :=
  (claim_C10_keys_never_deleted [(Event.Ready, [7])] .Ready 7 9).2.2.1 (by decide)

end DiscordPresence
